import Mathlib

/-!
Shallow embedding of the Lazor puzzle solver (board model, laser simulator,
combinatorial solver) together with theorems settling the specification
claims.  Every definition is translated from the corresponding Python
source function; names follow the source (leading underscores dropped).

Coordinate conventions: all coordinates are integers.  Python's floor
division `//` and nonnegative modulus `%` (for the positive divisor 2)
are `Int.ediv` / `Int.emod`, which agree with floor division and floor
modulus for positive divisors.
-/

namespace Lazor

/-- Block kinds, from models.BlockType ('A' reflect, 'B' opaq, 'C' refract). -/
inductive BlockType where
  | reflect
  | opaq
  | refract
deriving DecidableEq, Repr

/-- A block on the board, from models.Block (kind plus grid coordinate). -/
structure Block where
  kind : BlockType
  r : Int
  c : Int
deriving DecidableEq, Repr

/-- A laser state in half-block coordinates, from models.Laser. -/
structure Laser where
  x : Int
  y : Int
  vx : Int
  vy : Int
deriving DecidableEq, Repr

/-- The board state, from board.Board.  Python's grid of one-character
strings becomes a list of rows of strings; the fixed-block dict becomes
an association list (keys are inserted fresh, so first-match lookup
agrees with dict lookup); the free-block dict becomes an ordered list. -/
structure Board where
  grid : List (List String)
  fixed_blocks : List ((Int × Int) × Block)
  free_blocks : List (BlockType × Nat)
  lasers : List Laser
  points : List (Int × Int)
deriving DecidableEq, Repr

/-- Number of rows, from board.Board.nrows. -/
def Board.nrows (b : Board) : Int :=
  (b.grid.length : Int)

/-- Number of columns, from board.Board.ncols (length of row 0, or 0). -/
def Board.ncols (b : Board) : Int :=
  match b.grid with
  | [] => 0
  | row :: _ => (row.length : Int)

/-- Python str.lower / str.upper on the token strings, written over the
character list so that it reduces in the kernel (the tokens involved are
ASCII, where Char.toLower / Char.toUpper match Python exactly). -/
def pyLower (s : String) : String := String.mk (s.data.map Char.toLower)

/-- Uppercase companion of pyLower. -/
def pyUpper (s : String) : String := String.mk (s.data.map Char.toUpper)

/-- Bounds check, from board.Board.in_bounds. -/
def Board.in_bounds (b : Board) (r c : Int) : Bool :=
  decide (0 ≤ r) && decide (r < b.nrows) && decide (0 ≤ c) && decide (c < b.ncols)

/-- Grid cell access `board.grid[r][c]`; only used under in-bounds guards,
where the defaults never fire. -/
def Board.gridAt (b : Board) (r c : Int) : String :=
  (b.grid.getD r.toNat []).getD c.toNat ""

/-- Dict lookup on the fixed-block association list (first match). -/
def Board.fixedAt (b : Board) (r c : Int) : Option Block :=
  (b.fixed_blocks.find? (fun p => p.1 = (r, c))).map (fun p => p.2)

/-- Placement legality, from board.Board.is_placeable. -/
def Board.is_placeable (b : Board) (r c : Int) : Bool :=
  b.in_bounds r c && (b.fixedAt r c).isNone && (b.gridAt r c = "o")

/-- Block placement, from board.Board.place_block; Python raises ValueError
when the cell is not placeable, modelled as Except.error. -/
def Board.place_block (b : Board) (r c : Int) (kind : BlockType) : Except String Board :=
  if b.is_placeable r c then
    Except.ok { b with fixed_blocks := ((r, c), Block.mk kind r c) :: b.fixed_blocks }
  else
    Except.error "Cannot place block"

/-- Functional update `board.grid[r][c] = ch`; callers only use it on
in-bounds cells (List.set is the identity out of range, where Python
would have been unreachable). -/
def Board.gridSet (b : Board) (r c : Int) (ch : String) : Board :=
  { b with grid := b.grid.set r.toNat ((b.grid.getD r.toNat []).set c.toNat ch) }

/-! ### Simulator (lazor_core/simulator.py) -/

/-- Character of the block governing cell (r, c), from simulator._block_ch_at:
first the grid marking (any of "a"/"b"/"c"/"d", case-folded), then the
fixed-block map as a fallback (reflect defaults to "a", i.e. "/"). -/
def block_ch_at (b : Board) (r c : Int) : Option String :=
  if b.in_bounds r c then
    let gch := pyLower (b.gridAt r c)
    if gch = "a" ∨ gch = "b" ∨ gch = "c" ∨ gch = "d" then some gch
    else
      match b.fixedAt r c with
      | some blk =>
        match blk.kind with
        | BlockType.reflect => some "a"
        | BlockType.opaq => some "b"
        | BlockType.refract => some "c"
      | none => none
  else none

/-- Mirror "/" reflection, from simulator._reflect_slash. -/
def reflect_slash (vx vy : Int) : Int × Int := (-vy, -vx)

/-- Mirror "\\" reflection, from simulator._reflect_backslash. -/
def reflect_backslash (vx vy : Int) : Int × Int := (vy, vx)

/-- Block/laser interaction, from simulator._interact. -/
def interact (block_ch : String) (vx vy : Int) (boundary : String) : List (Int × Int) :=
  if block_ch = "b" then []
  else if block_ch = "a" then [reflect_slash vx vy]
  else if block_ch = "d" then [reflect_backslash vx vy]
  else if block_ch = "c" then
    let passing := (vx, vy)
    let reflected :=
      if boundary = "vertical" then (-vx, vy)
      else if boundary = "horizontal" then (vx, -vy)
      else (-vx, -vy)
    [passing, reflected]
  else [(vx, vy)]

/-- Block lookup across a vertical lattice edge, from
simulator._block_across_vertical_edge. -/
def block_across_vertical_edge (b : Board) (mx y vy : Int) : Option String :=
  if mx.emod 2 ≠ 1 then none
  else
    let c := (mx - 1).ediv 2
    let up_r := (y - 1).ediv 2
    let down_r := (y + 1).ediv 2
    let candidates :=
      if vy > 0 then [(down_r, c), (up_r, c)]
      else [(up_r, c), (down_r, c)]
    candidates.findSome? (fun rc => block_ch_at b rc.1 rc.2)

/-- Block lookup across a horizontal lattice edge, from
simulator._block_across_horizontal_edge. -/
def block_across_horizontal_edge (b : Board) (x my vx : Int) : Option String :=
  if my.emod 2 ≠ 1 then none
  else
    let r := (my - 1).ediv 2
    let left_c := (x - 1).ediv 2
    let right_c := (x + 1).ediv 2
    let candidates :=
      if vx > 0 then [(r, right_c), (r, left_c)]
      else [(r, left_c), (r, right_c)]
    candidates.findSome? (fun rc => block_ch_at b rc.1 rc.2)

/-- Apply one (boundary, block-char) interaction to a set of beams.  The
source loop's early break on an empty beam list is extensionally the
same as continuing the fold, since flatMap over the empty list is empty. -/
def applyInteraction (bs : List (Int × Int)) (i : String × String) : List (Int × Int) :=
  bs.flatMap (fun d => interact i.2 d.1 d.2 i.1)

/-- One simulation step with collision resolution, from
simulator._step_and_collide.  Returns the new position and the outgoing
beam directions. -/
def step_and_collide (b : Board) (x y vx vy : Int) : Int × Int × List (Int × Int) :=
  let nx := x + vx
  let ny := y + vy
  let mx := (x + nx).ediv 2
  let my := (y + ny).ediv 2
  let hit_vertical := mx.emod 2 = 1
  let hit_horizontal := my.emod 2 = 1
  let interactions : List (String × String) :=
    if hit_vertical ∧ hit_horizontal then
      match block_ch_at b ((my - 1).ediv 2) ((mx - 1).ediv 2) with
      | none =>
        (match block_across_vertical_edge b mx y vy with
         | some ch => [("vertical", ch)]
         | none => []) ++
        (match block_across_horizontal_edge b x my vx with
         | some ch => [("horizontal", ch)]
         | none => [])
      | some ch => [("corner", ch)]
    else
      (if hit_vertical then
        match block_across_vertical_edge b mx y vy with
        | some ch => [("vertical", ch)]
        | none => []
       else []) ++
      (if hit_horizontal then
        match block_across_horizontal_edge b x my vx with
        | some ch => [("horizontal", ch)]
        | none => []
       else [])
  (nx, ny, interactions.foldl applyInteraction [(vx, vy)])

/-- Sequential application of one optional edge interaction to a beam
set: the no-block case leaves the beams unchanged, a block maps each
beam through interact.  Used to state the corner fallback policy of
_step_and_collide. -/
def applyEdge (o : Option String) (bd : String) (bs : List (Int × Int)) : List (Int × Int) :=
  match o with
  | some ch => bs.flatMap (fun d => interact ch d.1 d.2 bd)
  | none => bs

/-- Out-of-board test used at simulator.py lines 225 and 232 (same
expression both times). -/
def outOfRange (b : Board) (x y : Int) : Bool :=
  decide (y < -10) || decide (y > b.nrows * 2 + 10) ||
  decide (x < -10) || decide (x > b.ncols * 2 + 10)

/-- The four-component beam state key (position, direction). -/
abbrev StateKey := Int × Int × Int × Int

/-- Full state of the simulate_board loop.  `appended` and `stepAdds` are
instrumentation: the ordered list of state keys enqueued (line 239) and
the set of step-endpoint additions to hit_points (line 221); they receive
writes alongside the source's own updates and influence nothing. -/
structure SimState where
  hits : Finset (Int × Int)
  visited : Finset StateKey
  queue : List Laser
  iteration : Nat
  appended : List StateKey
  stepAdds : Finset (Int × Int)
deriving DecidableEq

/-- Enqueue a single outgoing direction (loop body of simulator.py lines
229-239): drop it if the look-ahead position is out of range or the state
key was already visited, otherwise mark it visited and append the laser. -/
def enqueueDir (b : Board) (nx ny : Int) (acc : List Laser × Finset StateKey × List StateKey)
    (d : Int × Int) : List Laser × Finset StateKey × List StateKey :=
  if outOfRange b (nx + d.1) (ny + d.2) then acc
  else if (nx, ny, d.1, d.2) ∈ acc.2.1 then acc
  else
    (acc.1 ++ [Laser.mk nx ny d.1 d.2],
     insert (nx, ny, d.1, d.2) acc.2.1,
     acc.2.2 ++ [(nx, ny, d.1, d.2)])

/-- One iteration of the simulate_board while loop (simulator.py lines
209-239), acting on the dequeued laser and the rest of the queue. -/
def simStep (b : Board) (first0 : Int × Int) (laser : Laser) (rest : List Laser)
    (s : SimState) : SimState :=
  let iter' := s.iteration + 1
  let hits1 :=
    if iter' > b.lasers.length ∨ (laser.x, laser.y) ≠ first0 then
      insert (laser.x, laser.y) s.hits
    else s.hits
  let step := step_and_collide b laser.x laser.y laser.vx laser.vy
  let nx := step.1
  let ny := step.2.1
  let out_dirs := step.2.2
  let hits2 := insert (nx, ny) hits1
  let stepAdds' := insert (nx, ny) s.stepAdds
  if outOfRange b nx ny then
    { hits := hits2, visited := s.visited, queue := rest,
      iteration := iter', appended := s.appended, stepAdds := stepAdds' }
  else
    let acc := out_dirs.foldl (enqueueDir b nx ny) (rest, s.visited, s.appended)
    { hits := hits2, visited := acc.2.1, queue := acc.1,
      iteration := iter', appended := acc.2.2, stepAdds := stepAdds' }

/-- Main loop of simulator.simulate_board.  `first0` is the first laser's
start (Python only evaluates board.lasers[0] when the queue is nonempty,
which forces lasers to be nonempty).  The fuel argument equals
max_iterations - iteration, so fuel running out is exactly the source's
`iteration < max_iterations` guard failing. -/
def simLoop (b : Board) (first0 : Int × Int) : Nat → SimState → SimState
  | 0, s => s
  | fuel + 1, s =>
    match s.queue with
    | [] => s
    | laser :: rest => simLoop b first0 fuel (simStep b first0 laser rest s)

/-- The iteration cap from simulator.py line 205. -/
def max_iterations : Nat := 5000

/-- Run the simulate_board loop from the seeded initial state and return
the final loop state. -/
def simRun (b : Board) : SimState :=
  let first0 :=
    match b.lasers with
    | [] => ((0 : Int), (0 : Int))
    | l :: _ => (l.x, l.y)
  simLoop b first0 max_iterations
    { hits := ∅, visited := ∅, queue := b.lasers, iteration := 0,
      appended := [], stepAdds := ∅ }

/-- Laser path simulation, from simulator.simulate_board: the set of all
half-block points hit. -/
def simulate_board (b : Board) : Finset (Int × Int) :=
  (simRun b).hits

/-! ### Board construction (board.py, parser.py) -/

/-- Raw parsed puzzle data, from models.BFFSpec.  Grid tokens are the
whitespace-separated strings of the GRID section. -/
structure BFFSpec where
  grid_tokens : List (List String)
  free_blocks : List (BlockType × Nat)
  lasers : List Laser
  points : List (Int × Int)
deriving DecidableEq, Repr

/-- Letter-to-kind mapping, from models.BlockType.from_letter, on an
already-uppercased letter. -/
def blockTypeOfUpper (u : String) : Option BlockType :=
  if u = "A" then some BlockType.reflect
  else if u = "B" then some BlockType.opaq
  else if u = "C" then some BlockType.refract
  else none

/-- Process the tokens of one grid row starting at column c, from the
inner loop of board.Board.from_bffspec: o/x pass through lowercased,
A/B/C become a non-placeable "x" cell plus a fixed-block entry, anything
else raises ValueError. -/
def buildCells (r : Int) : Int → List String → Except String (List String × List ((Int × Int) × Block))
  | _, [] => Except.ok ([], [])
  | c, tok :: rest =>
    let upper := pyUpper tok
    if upper = "O" ∨ upper = "X" then
      match buildCells r (c + 1) rest with
      | Except.ok (row, fx) => Except.ok (pyLower upper :: row, fx)
      | Except.error e => Except.error e
    else
      match blockTypeOfUpper upper with
      | some k =>
        match buildCells r (c + 1) rest with
        | Except.ok (row, fx) => Except.ok ("x" :: row, ((r, c), Block.mk k r c) :: fx)
        | Except.error e => Except.error e
      | none => Except.error "Unknown grid token"

/-- Process the grid rows starting at row r (outer loop of
board.Board.from_bffspec). -/
def buildGrid : Int → List (List String) → Except String (List (List String) × List ((Int × Int) × Block))
  | _, [] => Except.ok ([], [])
  | r, row :: rest =>
    match buildCells r 0 row with
    | Except.ok (newRow, fx) =>
      match buildGrid (r + 1) rest with
      | Except.ok (grid, fxs) => Except.ok (newRow :: grid, fx ++ fxs)
      | Except.error e => Except.error e
    | Except.error e => Except.error e

/-- Board construction from a parsed spec, from board.Board.from_bffspec.
Free blocks, lasers and target points are copied over unvalidated. -/
def from_bffspec (s : BFFSpec) : Except String Board :=
  match buildGrid 0 s.grid_tokens with
  | Except.ok (grid, fixed) =>
    Except.ok
      { grid := grid, fixed_blocks := fixed, free_blocks := s.free_blocks,
        lasers := s.lasers, points := s.points }
  | Except.error e => Except.error e

/-- Laser construction from a matched "L x y vx vy" line, from parser.py
lines 72-78: once the regex captures four integers, the Laser is built
unconditionally (no direction validation). -/
def parse_laser_tokens (nums : List Int) : Option Laser :=
  match nums with
  | [x, y, vx, vy] => some (Laser.mk x y vx vy)
  | _ => none

/-! ### Solver (lazor_core/solver.py) -/

/-- Placeable cells in row-major order, from solver.get_placeable_positions. -/
def get_placeable_positions (b : Board) : List (Int × Int) :=
  (List.range b.grid.length).flatMap (fun r =>
    (List.range (match b.grid with | [] => 0 | row :: _ => row.length)).filterMap (fun c =>
      if b.is_placeable (r : Int) (c : Int) then some ((r : Int), (c : Int)) else none))

/-- The flattened inventory, from solver.get_blocks_to_place (dict
iteration order is insertion order, kept by the list). -/
def get_blocks_to_place (b : Board) : List BlockType :=
  b.free_blocks.flatMap (fun p => List.replicate p.2 p.1)

/-- Half-block bounds of the board, from solver._board_bounds:
(xmin, xmax, ymin, ymax). -/
def board_bounds (b : Board) : Int × Int × Int × Int :=
  (0, b.ncols * 2, 0, b.nrows * 2)

/-- Record the hot cells contributed by one step of the empty-board trace
(the three conditional blocks of solver._hot_slots_by_empty_trace). -/
def hotStepAdds (b : Board) (x y vx vy : Int) (hot : Finset (Int × Int)) : Finset (Int × Int) :=
  let nx := x + vx
  let ny := y + vy
  let mx := (x + nx).ediv 2
  let my := (y + ny).ediv 2
  let hot1 :=
    if vx ≠ 0 ∧ vy = 0 ∧ mx.emod 2 = 1 then
      let c := (mx - 1).ediv 2
      if 0 ≤ c ∧ c < b.ncols then
        [(y - 1).ediv 2, (y + 1).ediv 2].foldl (fun h r =>
          if 0 ≤ r ∧ r < b.nrows ∧ b.gridAt r c = "o" then insert (r, c) h else h) hot
      else hot
    else hot
  let hot2 :=
    if vx = 0 ∧ vy ≠ 0 ∧ my.emod 2 = 1 then
      let r := (my - 1).ediv 2
      if 0 ≤ r ∧ r < b.nrows then
        [(x - 1).ediv 2, (x + 1).ediv 2].foldl (fun h c =>
          if 0 ≤ c ∧ c < b.ncols ∧ b.gridAt r c = "o" then insert (r, c) h else h) hot1
      else hot1
    else hot1
  if vx ≠ 0 ∧ vy ≠ 0 then
    if mx.emod 2 = 1 ∧ my.emod 2 = 1 then
      let r_base := (my - 1).ediv 2
      let c_base := (mx - 1).ediv 2
      ([-1, 0, 1] : List Int).foldl (fun h dr =>
        ([-1, 0, 1] : List Int).foldl (fun h dc =>
          let rr := r_base + dr
          let cc := c_base + dc
          if 0 ≤ rr ∧ rr < b.nrows ∧ 0 ≤ cc ∧ cc < b.ncols ∧ b.gridAt rr cc = "o" then
            insert (rr, cc) h
          else h) h) hot2
    else hot2
  else hot2

/-- Per-laser trace loop of solver._hot_slots_by_empty_trace.  The fuel
argument equals max_steps - steps, so fuel running out is exactly the
source's `steps < max_steps` conjunct failing. -/
def hotLoop (b : Board) (vx vy xmax ymax : Int) :
    Nat → Int → Int → Finset StateKey → Finset (Int × Int) → Finset (Int × Int)
  | 0, _, _, _, hot => hot
  | fuel + 1, x, y, seen, hot =>
    if 0 - 2 ≤ x ∧ x ≤ xmax + 2 ∧ 0 - 2 ≤ y ∧ y ≤ ymax + 2 then
      let hot' := hotStepAdds b x y vx vy hot
      let nx := x + vx
      let ny := y + vy
      if (nx, ny, vx, vy) ∈ seen then hot'
      else if abs nx > xmax + 10 ∨ abs ny > ymax + 10 then hot'
      else hotLoop b vx vy xmax ymax fuel nx ny (insert (nx, ny, vx, vy) seen) hot'
    else hot

/-- Hot cells adjacent to the straight-line empty-board laser paths, from
solver._hot_slots_by_empty_trace. -/
def hot_slots_by_empty_trace (b : Board) : Finset (Int × Int) :=
  let bounds := board_bounds b
  let xmax := bounds.2.1
  let ymax := bounds.2.2.2
  b.lasers.foldl (fun hot L =>
    hotLoop b L.vx L.vy xmax ymax ((xmax + ymax) * 2).toNat L.x L.y ∅ hot) ∅

/-- Sort key of solver._sort_slots_by_laser_proximity: the Python tuple
`(rc not in hot, rc[0], rc[1])` compared lexicographically (False before
True becomes hot cells ranked 0, others 1). -/
def proximityLe (hot : Finset (Int × Int)) (a c : Int × Int) : Prop :=
  let ra : Nat := if a ∈ hot then 0 else 1
  let rc : Nat := if c ∈ hot then 0 else 1
  ra < rc ∨ (ra = rc ∧ (a.1 < c.1 ∨ (a.1 = c.1 ∧ a.2 ≤ c.2)))

instance (hot : Finset (Int × Int)) : DecidableRel (proximityLe hot) := fun _ _ => by
  unfold proximityLe; infer_instance

/-- Hot-cells-first ordering, from solver._sort_slots_by_laser_proximity.
Python's sorted is a stable sort; insertion sort is stable and agrees
with it for this total preorder key. -/
def sort_slots_by_laser_proximity (b : Board) (slots : List (Int × Int)) : List (Int × Int) :=
  List.insertionSort (proximityLe (hot_slots_by_empty_trace b)) slots

/-- Minimal Manhattan distance from a slot's centre to the target points,
from dist_to_targets inside solver._sort_slots_target_first (0 when
there are no targets; the min over a set does not depend on order). -/
def dist_to_targets (points : List (Int × Int)) (rc : Int × Int) : Int :=
  let x := 2 * rc.2 + 1
  let y := 2 * rc.1 + 1
  match points with
  | [] => 0
  | t :: ts => ts.foldl (fun m u => min m (abs (x - u.1) + abs (y - u.2)))
      (abs (x - t.1) + abs (y - t.2))

/-- Sort key of the second pass of solver._sort_slots_target_first. -/
def distLe (points : List (Int × Int)) (a c : Int × Int) : Prop :=
  dist_to_targets points a ≤ dist_to_targets points c

instance (points : List (Int × Int)) : DecidableRel (distLe points) := fun _ _ => by
  unfold distLe; infer_instance

/-- Target-driven slot ordering, from solver._sort_slots_target_first: a
stable re-sort by target distance of the hot-first ordering. -/
def sort_slots_target_first (b : Board) (slots : List (Int × Int)) : List (Int × Int) :=
  List.insertionSort (distLe b.points) (sort_slots_by_laser_proximity b slots)

/-- Subset test `board.points.issubset(hit_points)`. -/
def pointsCovered (points : List (Int × Int)) (hits : Finset (Int × Int)) : Bool :=
  points.all (fun p => p ∈ hits)

/-- Position combinations in itertools.combinations order. -/
def combinations : Nat → List α → List (List α)
  | 0, _ => [[]]
  | _ + 1, [] => []
  | n + 1, x :: xs => (combinations n xs).map (fun l => x :: l) ++ combinations (n + 1) xs

/-- All ways of inserting an element into a list. -/
def insertEverywhere (a : α) : List α → List (List α)
  | [] => [[a]]
  | b :: l => (a :: b :: l) :: (insertEverywhere a l).map (fun t => b :: t)

/-- All permutations of a list.  itertools.permutations enumerates in a
different order, but every use below immediately deduplicates and the
iteration order of the resulting Python set is implementation-defined
anyway; every claim proved about these lists is order-insensitive. -/
def permutationsL : List α → List (List α)
  | [] => [[]]
  | x :: xs => (permutationsL xs).flatMap (insertEverywhere x)

/-- Candidate board built by plain solve for one position combination and
one type permutation (solver.py lines 218-222); the placements are not
wrapped in try/except, so a placement failure propagates as an error. -/
def buildPlain (b : Board) (assignment : List ((Int × Int) × BlockType)) : Except String Board :=
  assignment.foldlM (fun tb pr => tb.place_block pr.1.1 pr.1.2 pr.2) b

/-- The ordered list of candidate boards plain solve simulates.  Python
iterates `set(permutations(...))` whose order is implementation-defined;
we fix List.permutations with first-occurrence dedup — every claim we
prove about this list is insensitive to that order. -/
def solveCandidates (b : Board) : List (Except String Board) :=
  let positions := get_placeable_positions b
  let blocks_to_place := get_blocks_to_place b
  (combinations blocks_to_place.length positions).flatMap (fun pos_combination =>
    ((permutationsL blocks_to_place).dedup).map (fun block_permutation =>
      buildPlain b (pos_combination.zip block_permutation)))

/-- Scan of the candidate stream inside solver.solve: a raised placement
error aborts the search; the first candidate covering all targets is
returned. -/
def solveGo (b : Board) : List (Except String Board) → Except String (Option Board)
  | [] => Except.ok none
  | Except.error e :: _ => Except.error e
  | Except.ok tb :: rest =>
    if pointsCovered b.points (simulate_board tb) then Except.ok (some tb)
    else solveGo b rest

/-- The brute-force solver, from solver.solve.  Except models an escaped
Python exception. -/
def solve (b : Board) : Except String (Option Board) :=
  let blocks_to_place := get_blocks_to_place b
  if blocks_to_place = [] then
    if pointsCovered b.points (simulate_board b) then Except.ok (some b) else Except.ok none
  else
    solveGo b (solveCandidates b)

/-- Deduplicated type permutations, from generate_unique_permutations in
solver.solve_optimized: a single distinct type yields one permutation,
otherwise permutations deduplicated in first-occurrence order. -/
def generate_unique_permutations (blocks_list : List BlockType) : List (List BlockType) :=
  if blocks_list.dedup.length = 1 then [blocks_list]
  else (permutationsL blocks_list).dedup

/-- Cells of a candidate that receive a Reflect block (solver.py line 348). -/
def reflectPositions (pos_combo : List (Int × Int)) (block_perm : List BlockType) :
    List (Int × Int) :=
  (pos_combo.zip block_perm).filterMap (fun p =>
    if p.2 = BlockType.reflect then some p.1 else none)

/-- Orientation vectors in itertools.product(('a','d'), repeat=n) order. -/
def orientVectors : Nat → List (List String)
  | 0 => [[]]
  | n + 1 => (["a", "d"].flatMap (fun c => (orientVectors n).map (fun l => c :: l)))

/-- Python dict(zip(keys, vals)) lookup: the last binding of a key wins. -/
def dictLookup (l : List ((Int × Int) × String)) (k : Int × Int) : Option String :=
  (l.reverse.find? (fun p => p.1 = k)).map (fun p => p.2)

/-- Candidate board built by solve_optimized for one position combination,
type permutation and Reflect orientation vector (solver.py lines 356-372):
place each block, then write its grid character ('a'/'d' for Reflect via
the orientation map, 'b' for opaq, 'c' for refract); a ValueError from
place_block skips the candidate (none).  The orientation map lookup can
only miss when the vector is shorter than the Reflect position list,
which the enumeration never produces; that unreachable case is also none. -/
def buildOpt (b : Board) (pos_combo : List (Int × Int)) (block_perm : List BlockType)
    (orientation_choices : List String) : Option Board :=
  let orient_map := (reflectPositions pos_combo block_perm).zip orientation_choices
  (pos_combo.zip block_perm).foldlM (fun tb pr =>
    match tb.place_block pr.1.1 pr.1.2 pr.2 with
    | Except.error _ => none
    | Except.ok tb' =>
      match pr.2 with
      | BlockType.reflect =>
        match dictLookup orient_map pr.1 with
        | some ch => some (tb'.gridSet pr.1.1 pr.1.2 ch)
        | none => none
      | BlockType.opaq => some (tb'.gridSet pr.1.1 pr.1.2 "b")
      | BlockType.refract => some (tb'.gridSet pr.1.1 pr.1.2 "c")) b

/-- The ordered list of candidate boards solve_optimized simulates
(none = candidate skipped by the ValueError handler). -/
def soCandidates (b : Board) : List (Option Board) :=
  let positions := sort_slots_target_first b (get_placeable_positions b)
  let blocks_to_place := get_blocks_to_place b
  (combinations blocks_to_place.length positions).flatMap (fun pos_combo =>
    (generate_unique_permutations blocks_to_place).flatMap (fun block_perm =>
      (orientVectors (reflectPositions pos_combo block_perm).length).map (fun oc =>
        buildOpt b pos_combo block_perm oc)))

/-- Scan of the candidate stream inside solver.solve_optimized (state
cache disabled as in the source; diagnostic counters dropped — they do
not affect the returned value). -/
def soGo (b : Board) : List (Option Board) → Option Board
  | [] => none
  | none :: rest => soGo b rest
  | some tb :: rest =>
    if pointsCovered b.points (simulate_board tb) then some tb
    else soGo b rest

/-- The optimized solver, from solver.solve_optimized with its default
arguments (use_hot_slots=True, hot_slots_ratio=1.0, the truncation block
commented out in the source). -/
def solve_optimized (b : Board) : Option Board :=
  let blocks_to_place := get_blocks_to_place b
  if blocks_to_place = [] then
    if pointsCovered b.points (simulate_board b) then some b else none
  else
    let positions := sort_slots_target_first b (get_placeable_positions b)
    if blocks_to_place.length > positions.length then none
    else soGo b (soCandidates b)

/-! ### Concrete boards used by witnesses and counterexamples -/

/-- A board with no lasers, no targets and no inventory (trivially solved). -/
def boardTrivial : Board := Board.mk [["x"]] [] [] [] []

/-- A 1x1 board whose inventory is a single Reflect block. -/
def boardOneReflect : Board := Board.mk [["o"]] [] [(BlockType.reflect, 1)] [] []

/-- A blockless board with two lasers whose start points differ. -/
def boardTwoLasers : Board := Board.mk [["x"]] [] [] [Laser.mk 0 0 1 1, Laser.mk 4 0 1 1] []

/-- A 2x2 open board: the laser running along y = -1 makes row 0 hot, and
the target (1,3) sits at the centre of the cold cell (1,0). -/
def boardHotCold : Board :=
  Board.mk [["o", "o"], ["o", "o"]] [] [] [Laser.mk 0 (-1) 1 0] [(1, 3)]

/-- A 1x1 board whose single cell carries the refract grid mark "c". -/
def boardCornerRefract : Board := Board.mk [["c"]] [] [] [] []

/-- An empty open 1x1 board (placement target for witnesses). -/
def boardOpen : Board := Board.mk [["o"]] [] [] [] []

/-- The board obtained from boardOpen by placing a Reflect block at (0,0). -/
def boardPlacedReflect : Board :=
  Board.mk [["o"]] [((0, 0), Block.mk BlockType.reflect 0 0)] [] [] []

/-- A parsed spec whose grid embeds a fixed Reflect block ("A"). -/
def specFixedA : BFFSpec := BFFSpec.mk [["A"]] [] [] []

/-- The board from_bffspec builds out of specFixedA. -/
def boardFixedA : Board :=
  Board.mk [["x"]] [((0, 0), Block.mk BlockType.reflect 0 0)] [] [] []

/-- A parsed spec containing a zero-direction laser. -/
def zeroDirSpec : BFFSpec := BFFSpec.mk [["x"]] [] [Laser.mk 1 1 0 0] []

/-- The board from_bffspec builds out of zeroDirSpec. -/
def zeroDirBoard : Board := Board.mk [["x"]] [] [] [Laser.mk 1 1 0 0] []

/-! ### Soundness of the candidate scans -/

lemma pointsCovered_iff (pts : List (Int × Int)) (hits : Finset (Int × Int)) :
    pointsCovered pts hits = true ↔ ∀ p ∈ pts, p ∈ hits := by
  simp [pointsCovered]

lemma solveGo_sound (b : Board) :
    ∀ l br, solveGo b l = Except.ok (some br) →
      pointsCovered b.points (simulate_board br) = true := by
  intro l
  induction l with
  | nil => intro br h; simp [solveGo] at h
  | cons e rest ih =>
    intro br h
    match e with
    | Except.error msg => simp [solveGo] at h
    | Except.ok tb =>
      rw [solveGo] at h
      by_cases hc : pointsCovered b.points (simulate_board tb) = true
      · rw [if_pos hc] at h
        obtain rfl : tb = br := by simpa using h
        exact hc
      · rw [if_neg hc] at h
        exact ih br h

lemma soGo_sound (b : Board) :
    ∀ l br, soGo b l = some br →
      pointsCovered b.points (simulate_board br) = true := by
  intro l
  induction l with
  | nil => intro br h; simp [soGo] at h
  | cons e rest ih =>
    intro br h
    match e with
    | none => rw [soGo] at h; exact ih br h
    | some tb =>
      rw [soGo] at h
      by_cases hc : pointsCovered b.points (simulate_board tb) = true
      · rw [if_pos hc] at h
        obtain rfl : tb = br := by simpa using h
        exact hc
      · rw [if_neg hc] at h
        exact ih br h

/-- C1: Search soundness — whenever solve or solve_optimized returns a
board, the simulated hit set of that returned board is a superset of the
input board's target-point set. -/
theorem solver_search_soundness (b br : Board)
    (h : solve b = Except.ok (some br) ∨ solve_optimized b = some br) :
    b.points.toFinset ⊆ simulate_board br := by
  have key : pointsCovered b.points (simulate_board br) = true := by
    rcases h with h | h
    · rw [solve] at h
      by_cases hb : get_blocks_to_place b = []
      · rw [if_pos hb] at h
        by_cases hc : pointsCovered b.points (simulate_board b) = true
        · rw [if_pos hc] at h
          obtain rfl : b = br := by simpa using h
          exact hc
        · rw [if_neg hc] at h; simp at h
      · rw [if_neg hb] at h
        exact solveGo_sound b _ br h
    · rw [solve_optimized] at h
      by_cases hb : get_blocks_to_place b = []
      · rw [if_pos hb] at h
        by_cases hc : pointsCovered b.points (simulate_board b) = true
        · rw [if_pos hc] at h
          obtain rfl : b = br := by simpa using h
          exact hc
        · rw [if_neg hc] at h; simp at h
      · rw [if_neg hb] at h
        by_cases hn : (get_blocks_to_place b).length >
            (sort_slots_target_first b (get_placeable_positions b)).length
        · rw [if_pos hn] at h; simp at h
        · rw [if_neg hn] at h
          exact soGo_sound b _ br h
  intro p hp
  rw [List.mem_toFinset] at hp
  exact (pointsCovered_iff _ _).1 key p hp

/-- Witness for C1 at a concrete solvable board: both solvers return
boardTrivial, and its target set is covered by its own simulation. -/
theorem solver_search_soundness_witness :
    boardTrivial.points.toFinset ⊆ simulate_board boardTrivial :=
  solver_search_soundness boardTrivial boardTrivial (Or.inl rfl)

/-- C2: The interaction function realizes exactly the reference table,
with each row quantified over every boundary kind: absorb on "b", mirror
reflections on "a" and "d", straight-through plus the boundary-dependent
axis flip on "c" (vertical, horizontal, and the corner/unresolved
fallback), and pass-through for any non-block character. -/
theorem interact_reference_table (vx vy : Int) :
    (∀ bd : String, interact "b" vx vy bd = []) ∧
    (∀ bd : String, interact "a" vx vy bd = [(-vy, -vx)]) ∧
    (∀ bd : String, interact "d" vx vy bd = [(vy, vx)]) ∧
    interact "c" vx vy "vertical" = [(vx, vy), (-vx, vy)] ∧
    interact "c" vx vy "horizontal" = [(vx, vy), (vx, -vy)] ∧
    (∀ bd : String, bd ≠ "vertical" → bd ≠ "horizontal" →
      interact "c" vx vy bd = [(vx, vy), (-vx, -vy)]) ∧
    (∀ ch bd : String, ch ≠ "a" → ch ≠ "b" → ch ≠ "c" → ch ≠ "d" →
      interact ch vx vy bd = [(vx, vy)]) := by
  refine ⟨?_, ?_, ?_, ?_, ?_, ?_, ?_⟩ <;>
    intros <;>
    simp [interact, reflect_slash, reflect_backslash, *]

/-- Witness for C2: every row of the table exercised at a concrete
direction, covering all three boundary kinds and a non-block character. -/
theorem interact_reference_table_witness :
    interact "b" 1 2 "corner" = [] ∧
    interact "a" 1 2 "vertical" = [(-2, -1)] ∧
    interact "d" 1 2 "horizontal" = [(2, 1)] ∧
    interact "c" 1 2 "vertical" = [(1, 2), (-1, 2)] ∧
    interact "c" 1 2 "horizontal" = [(1, 2), (1, -2)] ∧
    interact "c" 1 2 "corner" = [(1, 2), (-1, -2)] ∧
    interact "z" 1 2 "corner" = [(1, 2)] :=
  ⟨(interact_reference_table 1 2).1 "corner",
   (interact_reference_table 1 2).2.1 "vertical",
   (interact_reference_table 1 2).2.2.1 "horizontal",
   (interact_reference_table 1 2).2.2.2.1,
   (interact_reference_table 1 2).2.2.2.2.1,
   (interact_reference_table 1 2).2.2.2.2.2.1 "corner" (by decide) (by decide),
   (interact_reference_table 1 2).2.2.2.2.2.2 "z" "corner" (by decide) (by decide)
     (by decide) (by decide)⟩

/-! ### Orientation enumeration (C3) -/

lemma mem_orientVectors_self :
    ∀ ov : List String, (∀ ch ∈ ov, ch = "a" ∨ ch = "d") → ov ∈ orientVectors ov.length := by
  intro ov
  induction ov with
  | nil => intro _; simp [orientVectors]
  | cons ch rest ih =>
    intro h
    have hch : ch = "a" ∨ ch = "d" := h ch (List.mem_cons_self ch rest)
    have hrest : rest ∈ orientVectors rest.length :=
      ih (fun c hc => h c (List.mem_cons_of_mem ch hc))
    show ch :: rest ∈ orientVectors (rest.length + 1)
    rw [orientVectors]
    refine List.mem_flatMap.2 ⟨ch, ?_, List.mem_map.2 ⟨rest, hrest, rfl⟩⟩
    rcases hch with rfl | rfl <;> simp

/-- C3 counterexample: for a board whose inventory holds one Reflect
block, plain solve enumerates exactly one candidate, whose Reflect cell
the simulator resolves as "a" ("/"); no "\\" candidate is ever simulated
by solve, contradicting the claim that both solvers enumerate both
orientations. -/
theorem solve_single_orientation_cex :
    get_blocks_to_place boardOneReflect = [BlockType.reflect] ∧
    (solveCandidates boardOneReflect).map (fun e =>
      match e with
      | Except.ok tb => some (block_ch_at tb 0 0)
      | Except.error _ => none) = [some (some "a")] := by
  refine ⟨rfl, ?_⟩
  decide

/-- C3 (amended): solve_optimized's candidate enumeration covers every
orientation assignment over {"a", "d"} for the Reflect cells of each
position combination and type permutation — in particular both
orientations of every placed Reflect block are generated and simulated. -/
theorem solve_optimized_orientation_enumeration (b : Board) (pc : List (Int × Int))
    (perm : List BlockType) (ov : List String)
    (hpc : pc ∈ combinations (get_blocks_to_place b).length
      (sort_slots_target_first b (get_placeable_positions b)))
    (hperm : perm ∈ generate_unique_permutations (get_blocks_to_place b))
    (hlen : ov.length = (reflectPositions pc perm).length)
    (hchars : ∀ ch ∈ ov, ch = "a" ∨ ch = "d") :
    buildOpt b pc perm ov ∈ soCandidates b := by
  rw [soCandidates]
  refine List.mem_flatMap.2 ⟨pc, hpc, ?_⟩
  refine List.mem_flatMap.2 ⟨perm, hperm, ?_⟩
  refine List.mem_map.2 ⟨ov, ?_, rfl⟩
  have := mem_orientVectors_self ov hchars
  rwa [hlen] at this

/-- Witness for C3 (amended) at the one-Reflect board, with the "\\"
orientation vector. -/
theorem solve_optimized_orientation_enumeration_witness :
    buildOpt boardOneReflect [(0, 0)] [BlockType.reflect] ["d"] ∈ soCandidates boardOneReflect :=
  solve_optimized_orientation_enumeration boardOneReflect [(0, 0)] [BlockType.reflect] ["d"]
    (by decide) (by decide) (by decide) (by decide)

/-! ### Bounded termination of the simulator (C8) -/

lemma simStep_iteration (b : Board) (f0 : Int × Int) (laser : Laser) (rest : List Laser)
    (s : SimState) : (simStep b f0 laser rest s).iteration = s.iteration + 1 := by
  rw [simStep]
  split <;> rfl

lemma simLoop_iteration_le (b : Board) (f0 : Int × Int) :
    ∀ (fuel : Nat) (s : SimState), (simLoop b f0 fuel s).iteration ≤ s.iteration + fuel := by
  intro fuel
  induction fuel with
  | zero => intro s; simp [simLoop]
  | succ n ih =>
    intro s
    rw [simLoop]
    cases hq : s.queue with
    | nil => dsimp only; omega
    | cons laser rest =>
      dsimp only
      have := ih (simStep b f0 laser rest s)
      rw [simStep_iteration] at this
      omega

lemma simLoop_queue_or_cap (b : Board) (f0 : Int × Int) :
    ∀ (fuel : Nat) (s : SimState),
      (simLoop b f0 fuel s).queue = [] ∨
        (simLoop b f0 fuel s).iteration = s.iteration + fuel := by
  intro fuel
  induction fuel with
  | zero => intro s; right; simp [simLoop]
  | succ n ih =>
    intro s
    rw [simLoop]
    cases hq : s.queue with
    | nil => left; dsimp only; exact hq
    | cons laser rest =>
      dsimp only
      rcases ih (simStep b f0 laser rest s) with h | h
      · exact Or.inl h
      · right
        rw [h, simStep_iteration]
        omega

/-- C8: Bounded termination — simulate_board is a total function
returning the collected hit set, the main loop performs at most 5000
dequeue iterations, and an exit with a nonempty queue can only happen at
exactly the iteration cap. -/
theorem simulate_board_bounded (b : Board) :
    simulate_board b = (simRun b).hits ∧
    (simRun b).iteration ≤ max_iterations ∧
    ((simRun b).queue = [] ∨ (simRun b).iteration = max_iterations) := by
  refine ⟨rfl, ?_, ?_⟩
  · rw [simRun]
    exact simLoop_iteration_le b _ max_iterations _
  · rw [simRun]
    exact simLoop_queue_or_cap b _ max_iterations _

/-! ### Cycle protection (C7) and the seed-start bug (C4) -/

lemma enqueueDir_step_invariant (b : Board) (nx ny : Int)
    (acc : List Laser × Finset StateKey × List StateKey) (d : Int × Int)
    (h1 : acc.2.2.Nodup) (h2 : ∀ k ∈ acc.2.2, k ∈ acc.2.1) :
    (enqueueDir b nx ny acc d).2.2.Nodup ∧
      ∀ k ∈ (enqueueDir b nx ny acc d).2.2, k ∈ (enqueueDir b nx ny acc d).2.1 := by
  rw [enqueueDir]
  split
  · exact ⟨h1, h2⟩
  · split
    · exact ⟨h1, h2⟩
    · rename_i hvis
      have hnotin : (nx, ny, d.1, d.2) ∉ acc.2.2 := fun hmem => hvis (h2 _ hmem)
      refine ⟨List.Nodup.append h1 (List.nodup_singleton _) ?_, ?_⟩
      · intro a ha hb
        rw [List.mem_singleton] at hb
        subst hb
        exact hnotin ha
      · intro k hk
        rcases List.mem_append.1 hk with hk | hk
        · exact Finset.mem_insert_of_mem (h2 k hk)
        · rw [List.mem_singleton] at hk
          subst hk
          exact Finset.mem_insert_self _ _

lemma enqueueDir_foldl_invariant (b : Board) (nx ny : Int) :
    ∀ (dirs : List (Int × Int)) (acc : List Laser × Finset StateKey × List StateKey),
      acc.2.2.Nodup → (∀ k ∈ acc.2.2, k ∈ acc.2.1) →
      (dirs.foldl (enqueueDir b nx ny) acc).2.2.Nodup ∧
        ∀ k ∈ (dirs.foldl (enqueueDir b nx ny) acc).2.2,
          k ∈ (dirs.foldl (enqueueDir b nx ny) acc).2.1 := by
  intro dirs
  induction dirs with
  | nil => intro acc h1 h2; exact ⟨h1, h2⟩
  | cons d rest ih =>
    intro acc h1 h2
    rw [List.foldl_cons]
    obtain ⟨h1', h2'⟩ := enqueueDir_step_invariant b nx ny acc d h1 h2
    exact ih (enqueueDir b nx ny acc d) h1' h2'

lemma simStep_appended_invariant (b : Board) (f0 : Int × Int) (laser : Laser)
    (rest : List Laser) (s : SimState)
    (h1 : s.appended.Nodup) (h2 : ∀ k ∈ s.appended, k ∈ s.visited) :
    (simStep b f0 laser rest s).appended.Nodup ∧
      ∀ k ∈ (simStep b f0 laser rest s).appended, k ∈ (simStep b f0 laser rest s).visited := by
  rw [simStep]
  split
  · exact ⟨h1, h2⟩
  · exact enqueueDir_foldl_invariant b _ _ _ (rest, s.visited, s.appended) h1 h2

lemma simLoop_appended_nodup (b : Board) (f0 : Int × Int) :
    ∀ (fuel : Nat) (s : SimState),
      s.appended.Nodup → (∀ k ∈ s.appended, k ∈ s.visited) →
      (simLoop b f0 fuel s).appended.Nodup := by
  intro fuel
  induction fuel with
  | zero => intro s h1 _; simpa [simLoop] using h1
  | succ n ih =>
    intro s h1 h2
    rw [simLoop]
    cases hq : s.queue with
    | nil => dsimp only; exact h1
    | cons laser rest =>
      dsimp only
      obtain ⟨h1', h2'⟩ := simStep_appended_invariant b f0 laser rest s h1 h2
      exact ih _ h1' h2'

/-- C7: Cycle protection — over the whole run of simulate_board, the
ordered list of enqueued (position, direction) state keys has no
duplicate: a key is appended only when absent from the visited-state
set, into which it is inserted at the same moment. -/
theorem simulate_no_duplicate_enqueue (b : Board) : (simRun b).appended.Nodup := by
  rw [simRun]
  apply simLoop_appended_nodup
  · exact List.nodup_nil
  · intro k hk
    simp at hk

/-- C4: the claim fails on the code — on a blockless board with two
lasers starting at (0,0) and (4,0), the second seed's start point (4,0)
ends up in simulate_board's output although no beam ever reaches it as a
step endpoint (it is never added by the step-endpoint line): the skip
condition at simulator.py line 214 only compares against the FIRST
laser's start, so dequeuing the second seed records its start as a hit,
contradicting the source's own comment and the spec. -/
theorem simulate_seed_start_hit_bug :
    boardTwoLasers.lasers = [Laser.mk 0 0 1 1, Laser.mk 4 0 1 1] ∧
    ((4 : Int), (0 : Int)) ∈ simulate_board boardTwoLasers ∧
    ((4 : Int), (0 : Int)) ∉ (simRun boardTwoLasers).stepAdds := by
  refine ⟨rfl, ?_, ?_⟩ <;> decide

/-! ### Slot ordering (C5).  A stable sort of an already r1-sorted list
by a total preorder r2 is pairwise-ordered by the lexicographic
combination of r2 and r1; insertion sort is stable, so this captures the
two sorted() passes of _sort_slots_target_first. -/

lemma pairwise_true (l : List α) : l.Pairwise (fun _ _ => True) := by
  induction l with
  | nil => exact List.Pairwise.nil
  | cons a t ih => exact List.Pairwise.cons (fun _ _ => trivial) ih

lemma pairwise_lex_orderedInsert (r1 r2 : α → α → Prop) [DecidableRel r2]
    (t2 : ∀ a c, r2 a c ∨ r2 c a) (tr2 : ∀ a c e, r2 a c → r2 c e → r2 a e) (a : α) :
    ∀ L : List α, L.Pairwise (fun x y => r2 x y ∧ (r2 y x → r1 x y)) →
      (∀ x ∈ L, r1 a x) →
      (L.orderedInsert r2 a).Pairwise (fun x y => r2 x y ∧ (r2 y x → r1 x y)) := by
  intro L
  induction L with
  | nil =>
    intro _ _
    exact List.pairwise_singleton _ a
  | cons c L ih =>
    intro hL ha
    obtain ⟨hcL, hL'⟩ := List.pairwise_cons.1 hL
    rw [List.orderedInsert]
    split
    · rename_i hac
      refine List.Pairwise.cons ?_ hL
      intro x hx
      rcases List.mem_cons.1 hx with rfl | hx
      · exact ⟨hac, fun _ => ha x (List.mem_cons_self _ _)⟩
      · exact ⟨tr2 a c x hac (hcL x hx).1, fun _ => ha x (List.mem_cons_of_mem _ hx)⟩
    · rename_i hac
      refine List.Pairwise.cons ?_ (ih hL' (fun x hx => ha x (List.mem_cons_of_mem _ hx)))
      intro x hx
      rcases (List.mem_orderedInsert r2).1 hx with rfl | hx
      · refine ⟨?_, fun h => absurd h hac⟩
        rcases t2 x c with h | h
        · exact absurd h hac
        · exact h
      · exact hcL x hx

lemma pairwise_lex_insertionSort (r1 r2 : α → α → Prop) [DecidableRel r2]
    (t2 : ∀ a c, r2 a c ∨ r2 c a) (tr2 : ∀ a c e, r2 a c → r2 c e → r2 a e) :
    ∀ l : List α, l.Pairwise r1 →
      (List.insertionSort r2 l).Pairwise (fun x y => r2 x y ∧ (r2 y x → r1 x y)) := by
  intro l
  induction l with
  | nil => intro _; exact List.Pairwise.nil
  | cons a l ih =>
    intro hl
    obtain ⟨ha, hl'⟩ := List.pairwise_cons.1 hl
    rw [List.insertionSort]
    refine pairwise_lex_orderedInsert r1 r2 t2 tr2 a _ (ih hl') ?_
    intro x hx
    exact ha x ((List.perm_insertionSort r2 l).mem_iff.1 hx)

lemma proximityLe_total (hot : Finset (Int × Int)) (a c : Int × Int) :
    proximityLe hot a c ∨ proximityLe hot c a := by
  unfold proximityLe
  by_cases h1 : a ∈ hot <;> by_cases h2 : c ∈ hot <;> simp [h1, h2] <;> omega

lemma proximityLe_trans (hot : Finset (Int × Int)) (a c e : Int × Int) :
    proximityLe hot a c → proximityLe hot c e → proximityLe hot a e := by
  unfold proximityLe
  by_cases h1 : a ∈ hot <;> by_cases h2 : c ∈ hot <;> by_cases h3 : e ∈ hot <;>
    simp [h1, h2, h3] <;> omega

lemma distLe_total (pts : List (Int × Int)) (a c : Int × Int) :
    distLe pts a c ∨ distLe pts c a :=
  Int.le_total _ _

lemma distLe_trans (pts : List (Int × Int)) (a c e : Int × Int) :
    distLe pts a c → distLe pts c e → distLe pts a e :=
  le_trans

/-- C5 (amended): _sort_slots_target_first returns a permutation of the
input slots, pairwise ordered by target distance as the primary key;
within equal distance the hot-first ordering (hot cells first, ties by
(row, col)) applies — i.e. target distance is primary and hot-first
secondary, not the other way round. -/
theorem sort_slots_target_first_ordering (b : Board) (slots : List (Int × Int)) :
    (sort_slots_target_first b slots).Perm slots ∧
    (sort_slots_target_first b slots).Pairwise (fun u v =>
      distLe b.points u v ∧
        (distLe b.points v u → proximityLe (hot_slots_by_empty_trace b) u v)) := by
  constructor
  · rw [sort_slots_target_first, sort_slots_by_laser_proximity]
    exact (List.perm_insertionSort _ _).trans (List.perm_insertionSort _ _)
  · rw [sort_slots_target_first]
    apply pairwise_lex_insertionSort _ _ (distLe_total b.points) (distLe_trans b.points)
    rw [sort_slots_by_laser_proximity]
    have h := pairwise_lex_insertionSort (fun _ _ => True)
      (proximityLe (hot_slots_by_empty_trace b))
      (proximityLe_total _) (proximityLe_trans _) slots (pairwise_true slots)
    exact h.imp (fun hc => hc.1)

/-- C5 counterexample: on boardHotCold the final slot order starts with
the non-hot cell (1,0) (distance 0 to the target) ahead of the hot cell
(0,0), so hot cells do not come first in _sort_slots_target_first's
output — the hot-first ordering is not the primary sort key. -/
theorem sort_hot_first_cex :
    sort_slots_target_first boardHotCold (get_placeable_positions boardHotCold) =
      [(1, 0), (0, 0), (1, 1), (0, 1)] ∧
    ((1 : Int), (0 : Int)) ∉ hot_slots_by_empty_trace boardHotCold ∧
    ((0 : Int), (0 : Int)) ∈ hot_slots_by_empty_trace boardHotCold := by
  refine ⟨?_, ?_, ?_⟩ <;> decide

/-! ### Corner resolution policy (C6) -/

/-- C6: When a step's midpoint is odd on both axes, _step_and_collide
first resolves the block at the corner's owning grid cell
((my-1)//2, (mx-1)//2); only when that lookup yields nothing does it fall
back to resolving the vertical-edge and horizontal-edge interactions
independently, applying the vertical one first and feeding its output
beams into the horizontal one. -/
theorem step_and_collide_corner_two_tier (b : Board) (x y vx vy : Int)
    (hv : ((x + (x + vx)).ediv 2).emod 2 = 1)
    (hh : ((y + (y + vy)).ediv 2).emod 2 = 1) :
    (∀ ch, block_ch_at b (((y + (y + vy)).ediv 2 - 1).ediv 2)
        (((x + (x + vx)).ediv 2 - 1).ediv 2) = some ch →
      step_and_collide b x y vx vy = (x + vx, y + vy, interact ch vx vy "corner")) ∧
    (block_ch_at b (((y + (y + vy)).ediv 2 - 1).ediv 2)
        (((x + (x + vx)).ediv 2 - 1).ediv 2) = none →
      step_and_collide b x y vx vy =
        (x + vx, y + vy,
          applyEdge (block_across_horizontal_edge b x ((y + (y + vy)).ediv 2) vx) "horizontal"
            (applyEdge (block_across_vertical_edge b ((x + (x + vx)).ediv 2) y vy) "vertical"
              [(vx, vy)]))) := by
  constructor
  · intro ch hch
    simp [step_and_collide, hv, hh, hch, applyInteraction]
  · intro hnone
    cases hV : block_across_vertical_edge b ((x + (x + vx)).ediv 2) y vy <;>
      cases hH : block_across_horizontal_edge b x ((y + (y + vy)).ediv 2) vx <;>
      simp [step_and_collide, hv, hh, hnone, hV, hH, applyEdge, applyInteraction]

/-- Witness for C6: a diagonal step from (1,1) crossing the corner of
the refract-marked cell of boardCornerRefract takes the corner branch. -/
theorem step_and_collide_corner_two_tier_witness :
    step_and_collide boardCornerRefract 1 1 1 1 = (2, 2, interact "c" 1 1 "corner") :=
  (step_and_collide_corner_two_tier boardCornerRefract 1 1 1 1 (by decide) (by decide)).1
    "c" (by decide)

/-! ### Zero-direction lasers at build time (C9) -/

/-- C9 counterexample: puzzle input containing a laser with direction
(0, 0) builds without any error — the parser's laser rule constructs the
Laser unconditionally and Board construction copies it, so the claimed
build-time rejection does not exist. -/
theorem zero_direction_not_rejected_cex :
    parse_laser_tokens [1, 1, 0, 0] = some (Laser.mk 1 1 0 0) ∧
    from_bffspec zeroDirSpec = Except.ok zeroDirBoard ∧
    zeroDirBoard.lasers = [Laser.mk 1 1 0 0] :=
  ⟨rfl, rfl, rfl⟩

/-- C9 (amended): board construction performs no laser-direction
validation — from_bffspec copies the laser list unchanged whenever it
succeeds (its only failure source is an unknown grid token), and the
parser's laser rule builds the Laser from the four captured integers
unconditionally, so a (0,0)-direction laser reaches the constructed
Board and hence simulation. -/
theorem construction_copies_lasers_unvalidated :
    (∀ (s : BFFSpec) (b : Board), from_bffspec s = Except.ok b → b.lasers = s.lasers) ∧
    (∀ x y : Int, parse_laser_tokens [x, y, 0, 0] = some (Laser.mk x y 0 0)) := by
  constructor
  · intro s b h
    rw [from_bffspec] at h
    cases hg : buildGrid 0 s.grid_tokens with
    | ok p =>
      rw [hg] at h
      cases h
      rfl
    | error e =>
      rw [hg] at h
      cases h
  · intro x y
    rfl

/-- Witness for C9 (amended) at the concrete zero-direction spec. -/
theorem construction_copies_lasers_unvalidated_witness :
    zeroDirBoard.lasers = zeroDirSpec.lasers ∧
    parse_laser_tokens [3, 4, 0, 0] = some (Laser.mk 3 4 0 0) :=
  ⟨construction_copies_lasers_unvalidated.1 zeroDirSpec zeroDirBoard rfl,
   construction_copies_lasers_unvalidated.2 3 4⟩

/-! ### Fixed blocks resolve with default orientation (C10) -/

lemma buildCells_spec (r : Int) :
    ∀ (toks : List String) (c0 : Int) (row : List String) (fx : List ((Int × Int) × Block)),
      buildCells r c0 toks = Except.ok (row, fx) →
      row.length = toks.length ∧
      ∀ k blk, (k, blk) ∈ fx →
        k.1 = r ∧ ∃ i : Nat, k.2 = c0 + (i : Int) ∧ i < row.length ∧ row.getD i "" = "x" := by
  intro toks
  induction toks with
  | nil =>
    intro c0 row fx h
    rw [buildCells] at h
    simp only [Except.ok.injEq, Prod.mk.injEq] at h
    obtain ⟨h1, h2⟩ := h
    subst h1; subst h2
    exact ⟨rfl, fun k blk hk => absurd hk (List.not_mem_nil _)⟩
  | cons tok rest ih =>
    intro c0 row fx h
    rw [buildCells] at h
    by_cases hox : pyUpper tok = "O" ∨ pyUpper tok = "X"
    · rw [if_pos hox] at h
      cases hrec : buildCells r (c0 + 1) rest with
      | ok p =>
        obtain ⟨row', fx'⟩ := p
        rw [hrec] at h
        simp only [Except.ok.injEq, Prod.mk.injEq] at h
        obtain ⟨h1, h2⟩ := h
        subst h1; subst h2
        obtain ⟨hlen, hfx⟩ := ih (c0 + 1) row' fx' hrec
        refine ⟨by simp [hlen], ?_⟩
        intro k blk hk
        obtain ⟨hk1, i, hk2, hk3, hk4⟩ := hfx k blk hk
        refine ⟨hk1, i + 1, by push_cast at hk2 ⊢; omega, by simpa using hk3, by simpa using hk4⟩
      | error e =>
        rw [hrec] at h
        simp at h
    · rw [if_neg hox] at h
      cases hbt : blockTypeOfUpper (pyUpper tok) with
      | some kb =>
        rw [hbt] at h
        cases hrec : buildCells r (c0 + 1) rest with
        | ok p =>
          obtain ⟨row', fx'⟩ := p
          rw [hrec] at h
          simp only [Except.ok.injEq, Prod.mk.injEq] at h
          obtain ⟨h1, h2⟩ := h
          subst h1; subst h2
          obtain ⟨hlen, hfx⟩ := ih (c0 + 1) row' fx' hrec
          refine ⟨by simp [hlen], ?_⟩
          intro k blk hk
          rcases List.mem_cons.1 hk with heq | hk
          · have hk1 : k = (r, c0) := congrArg Prod.fst heq
            subst hk1
            exact ⟨rfl, 0, by simp, by simp, rfl⟩
          · obtain ⟨hk1, i, hk2, hk3, hk4⟩ := hfx k blk hk
            refine ⟨hk1, i + 1, by push_cast at hk2 ⊢; omega, by simpa using hk3,
              by simpa using hk4⟩
        | error e =>
          rw [hrec] at h
          simp at h
      | none =>
        rw [hbt] at h
        simp at h

lemma buildGrid_spec :
    ∀ (rows : List (List String)) (r0 : Int) (grid : List (List String))
      (fx : List ((Int × Int) × Block)),
      buildGrid r0 rows = Except.ok (grid, fx) →
      grid.length = rows.length ∧
      (∀ j : Nat, (grid.getD j []).length = (rows.getD j []).length) ∧
      ∀ k blk, (k, blk) ∈ fx →
        ∃ j : Nat, k.1 = r0 + (j : Int) ∧ j < grid.length ∧
          ∃ i : Nat, k.2 = (i : Int) ∧ i < (grid.getD j []).length ∧
            (grid.getD j []).getD i "" = "x" := by
  intro rows
  induction rows with
  | nil =>
    intro r0 grid fx h
    rw [buildGrid] at h
    simp only [Except.ok.injEq, Prod.mk.injEq] at h
    obtain ⟨h1, h2⟩ := h
    subst h1; subst h2
    exact ⟨rfl, fun _ => rfl, fun k blk hk => absurd hk (List.not_mem_nil _)⟩
  | cons row rest ih =>
    intro r0 grid fx h
    rw [buildGrid] at h
    cases hc : buildCells r0 0 row with
    | ok pc =>
      obtain ⟨newRow, fxr⟩ := pc
      rw [hc] at h
      cases hg : buildGrid (r0 + 1) rest with
      | ok pg =>
        obtain ⟨grid', fxs⟩ := pg
        rw [hg] at h
        simp only [Except.ok.injEq, Prod.mk.injEq] at h
        obtain ⟨h1, h2⟩ := h
        subst h1; subst h2
        obtain ⟨hclen, hcfx⟩ := buildCells_spec r0 row 0 newRow fxr hc
        obtain ⟨hglen, hglens, hgfx⟩ := ih (r0 + 1) grid' fxs hg
        refine ⟨by simp [hglen], ?_, ?_⟩
        · intro j
          cases j with
          | zero => simpa using hclen
          | succ j => simpa using hglens j
        · intro k blk hk
          rcases List.mem_append.1 hk with hk | hk
          · obtain ⟨hk1, i, hk2, hk3, hk4⟩ := hcfx k blk hk
            refine ⟨0, by simpa using hk1, by simp, i, by simpa using hk2,
              by simpa using hk3, by simpa using hk4⟩
          · obtain ⟨j, hk1, hk2, i, hk3, hk4, hk5⟩ := hgfx k blk hk
            refine ⟨j + 1, by push_cast at hk1 ⊢; omega, by simp; omega, i, hk3,
              by simpa using hk4, by simpa using hk5⟩
      | error e =>
        rw [hg] at h
        simp at h
    | error e =>
      rw [hc] at h
      simp at h

lemma from_bffspec_fixed_cell (s : BFFSpec) (b : Board)
    (hok : from_bffspec s = Except.ok b)
    (hrect : ∀ row ∈ s.grid_tokens, row.length = (s.grid_tokens.headD []).length) :
    ∀ (r c : Int) (blk : Block), b.fixedAt r c = some blk →
      b.in_bounds r c = true ∧ b.gridAt r c = "x" := by
  intro r c blk hfind
  rw [from_bffspec] at hok
  cases hg : buildGrid 0 s.grid_tokens with
  | error e =>
    rw [hg] at hok
    simp at hok
  | ok p =>
    obtain ⟨grid, fixed⟩ := p
    rw [hg] at hok
    simp only [Except.ok.injEq] at hok
    subst hok
    obtain ⟨hlen, hlens, hfx⟩ := buildGrid_spec s.grid_tokens 0 grid fixed hg
    rw [Board.fixedAt] at hfind
    rw [Option.map_eq_some'] at hfind
    obtain ⟨pr, hpr, hpr2⟩ := hfind
    have hmem : pr ∈ fixed := List.mem_of_find?_eq_some hpr
    have hkey : pr.1 = (r, c) := by
      have := List.find?_some hpr
      simpa using this
    obtain ⟨j, hj1, hj2, i, hi1, hi2, hi3⟩ := hfx pr.1 pr.2 (by
      rw [← Prod.mk.eta (p := pr)] at hmem
      exact hmem)
    rw [hkey] at hj1 hi1
    simp only at hj1 hi1
    have hr : r = (j : Int) := by omega
    have hc' : c = (i : Int) := hi1
    -- column bound against ncols via rectangularity
    have hj2' : j < s.grid_tokens.length := by omega
    have hrowmem : s.grid_tokens.getD j [] ∈ s.grid_tokens := by
      rw [List.getD_eq_getElem _ _ (by omega)]
      exact List.getElem_mem _
    have hjlen : (grid.getD j []).length = (s.grid_tokens.headD []).length := by
      rw [hlens j]
      exact hrect _ hrowmem
    have hhead : (s.grid_tokens.headD []).length = (grid.getD 0 []).length := by
      rw [hlens 0]
      cases s.grid_tokens <;> rfl
    have hncols : Board.ncols (Board.mk grid fixed s.free_blocks s.lasers s.points) =
        ((grid.getD 0 []).length : Int) := by
      rw [Board.ncols]
      cases grid with
      | nil => simp at hj2
      | cons g0 gr => rfl
    constructor
    · rw [Board.in_bounds]
      simp only [Bool.and_eq_true, decide_eq_true_eq]
      refine ⟨⟨⟨by omega, ?_⟩, by omega⟩, ?_⟩
      · show r < Board.nrows _
        rw [Board.nrows]
        simp only
        omega
      · show c < Board.ncols _
        rw [hncols]
        omega
    · rw [Board.gridAt]
      simp only
      rw [hr, hc']
      simpa using hi3

/-- C10: A Reflect block visible only through the fixed-block map, with
no orientation character in the grid, is always resolved by the
simulator's lookup as "a" ("/"): this covers every block placed through
Board.place_block (which leaves the grid untouched and requires an "o"
cell) and every fixed block built from a rectangular puzzle grid (whose
cell is stored as "x"); the "\\" orientation is unreachable for them. -/
theorem fixed_reflect_always_slash :
    (∀ (b : Board) (r c : Int) (k : BlockType) (b' : Board),
        b.place_block r c k = Except.ok b' →
        b'.grid = b.grid ∧ (k = BlockType.reflect → block_ch_at b' r c = some "a")) ∧
    (∀ (s : BFFSpec) (b : Board),
        from_bffspec s = Except.ok b →
        (∀ row ∈ s.grid_tokens, row.length = (s.grid_tokens.headD []).length) →
        ∀ (r c : Int) (blk : Block), b.fixedAt r c = some blk →
          blk.kind = BlockType.reflect → block_ch_at b r c = some "a") := by
  constructor
  · intro b r c k b' h
    rw [Board.place_block] at h
    by_cases hp : b.is_placeable r c = true
    · rw [if_pos hp] at h
      simp only [Except.ok.injEq] at h
      subst h
      refine ⟨rfl, ?_⟩
      intro hk
      subst hk
      rw [Board.is_placeable] at hp
      simp only [Bool.and_eq_true, decide_eq_true_eq] at hp
      obtain ⟨⟨hin, _⟩, hgrido⟩ := hp
      rw [block_ch_at]
      have hin' : Board.in_bounds { b with fixed_blocks := ((r, c), Block.mk BlockType.reflect r c) :: b.fixed_blocks } r c = true := hin
      rw [if_pos hin']
      have hg' : Board.gridAt { b with fixed_blocks := ((r, c), Block.mk BlockType.reflect r c) :: b.fixed_blocks } r c = "o" := hgrido
      rw [hg']
      have hlow : pyLower "o" = "o" := by decide
      rw [hlow]
      rw [if_neg (by decide)]
      have hfat : Board.fixedAt { b with fixed_blocks := ((r, c), Block.mk BlockType.reflect r c) :: b.fixed_blocks } r c = some (Block.mk BlockType.reflect r c) := by
        rw [Board.fixedAt]
        simp [List.find?]
      rw [hfat]
    · rw [if_neg hp] at h
      simp at h
  · intro s b hok hrect r c blk hfind hkind
    obtain ⟨hin, hx⟩ := from_bffspec_fixed_cell s b hok hrect r c blk hfind
    rw [block_ch_at, if_pos hin, hx]
    have hlow : pyLower "x" = "x" := by decide
    rw [hlow]
    rw [if_neg (by decide)]
    rw [hfind]
    simp [hkind]

/-- Witness for C10: a Reflect placed on boardOpen and the fixed Reflect
of specFixedA both resolve to "a". -/
theorem fixed_reflect_always_slash_witness :
    block_ch_at boardPlacedReflect 0 0 = some "a" ∧
    block_ch_at boardFixedA 0 0 = some "a" :=
  ⟨(fixed_reflect_always_slash.1 boardOpen 0 0 BlockType.reflect boardPlacedReflect rfl).2 rfl,
   fixed_reflect_always_slash.2 specFixedA boardFixedA rfl (by decide) 0 0
     (Block.mk BlockType.reflect 0 0) rfl rfl⟩

end Lazor
